import Mathlib

/-!
Shallow embedding of the PDFExtractor repository core
(`src/markdown_extractor.py`, `src/docx_extractor.py`, `src/indexer.py`,
`src/searcher.py`) and proofs about it.

Python strings are modelled as `List Char`, byte buffers as `List Nat`,
character offsets as `Nat`.  External collaborators (hashlib's SHA-256
digest, `yaml.safe_load`, the compiled regex of a user pattern) are
parameters of the definitions; everything else is translated directly from
the source.
-/

namespace PDFX

/-! ## Content hasher (`markdown_extractor.py` lines 12-23)

`hashlib.sha256` is modelled by its incremental-update semantics: the
hasher state is the list of bytes fed so far (`update` appends), and
`hexdigest` applies an arbitrary digest function `hex` to the accumulated
bytes.  `compute_file_hash` reads the file in chunks of `chunkSize` bytes
(`f.read(4096)` until `b""`), feeding each chunk to the hasher;
`compute_data_hash` hashes the whole buffer at once. -/

/-- The successive chunks returned by `iter(lambda: f.read(n), b"")`:
`take n`, then recurse on `drop n`, stopping at the empty buffer. -/
def readChunks (n : Nat) : List Nat → List (List Nat)
  | [] => []
  | b :: rest =>
    if _h : n = 0 then []
    else (b :: rest).take n :: readChunks n ((b :: rest).drop n)
  termination_by data => data.length
  decreasing_by
    simp only [List.length_drop, List.length_cons]
    omega

/-- `compute_file_hash`: stream the file's bytes in fixed-size chunks
through the hasher, then format the digest.  `hex` stands for
`hashlib`'s hex digest of the accumulated bytes. -/
def compute_file_hash (hex : List Nat → String) (chunkSize : Nat)
    (fileBytes : List Nat) : String :=
  "sha256:" ++ hex ((readChunks chunkSize fileBytes).foldl (· ++ ·) [])

/-- `compute_data_hash`: hash the in-memory buffer in one shot. -/
def compute_data_hash (hex : List Nat → String) (data : List Nat) : String :=
  "sha256:" ++ hex data

/-! ## Page estimation (`markdown_extractor.py` lines 66-68,
`docx_extractor.py` lines 106-110) -/

/-- Markdown `estimate_pages(content, chars_per_page=3000)`:
`max(1, len(content) // chars_per_page + 1)`. -/
def estimate_pages (content : List Char) (chars_per_page : Nat := 3000) : Nat :=
  max 1 (content.length / chars_per_page + 1)

/-- DOCX `estimate_pages(doc)`: sum paragraph text lengths, then
`max(1, total_chars // 3000 + 1)`. -/
def estimate_pages_docx (paragraphs : List (List Char)) : Nat :=
  max 1 ((paragraphs.map List.length).sum / 3000 + 1)

/-! ## Python string primitives

Python strings are `List Char`.  `pyWS` is the ASCII whitespace class used
by `str.strip()`/`str.split()` and the regex `\s`; `boundaryWS` is the
three-character set `" \n\t"` that `search_file` checks when expanding a
context window. -/

def pyWS (c : Char) : Bool :=
  c = ' ' || c = '\t' || c = '\n' || c = '\r' || c = '\x0b' || c = '\x0c'

def boundaryWS (c : Char) : Bool :=
  c = ' ' || c = '\n' || c = '\t'

/-- `str.strip()`: remove leading and trailing whitespace. -/
def pyStrip (s : List Char) : List Char :=
  ((s.dropWhile pyWS).reverse.dropWhile pyWS).reverse

/-- Helper for `str.split()` (no separator): accumulate the current word in
`acc` (reversed) and cut at whitespace, discarding empty pieces. -/
def splitWSAux : List Char → List Char → List (List Char)
  | [], acc => if acc.isEmpty then [] else [acc.reverse]
  | c :: cs, acc =>
    if pyWS c then
      if acc.isEmpty then splitWSAux cs [] else acc.reverse :: splitWSAux cs []
    else splitWSAux cs (c :: acc)

/-- `str.split()` with no arguments: split on whitespace runs, no empty
pieces. -/
def pySplitWS (s : List Char) : List (List Char) :=
  splitWSAux s []

/-- `" ".join(words)`. -/
def joinWords : List (List Char) → List Char
  | [] => []
  | [w] => w
  | w :: w2 :: ws => w ++ ' ' :: joinWords (w2 :: ws)

/-- `str.split(sep)` for a one-character separator, keeping empty pieces
(Python semantics: `"".split("\n") == [""]`). -/
def splitOnChar (sep : Char) : List Char → List (List Char)
  | [] => [[]]
  | c :: cs =>
    if c = sep then [] :: splitOnChar sep cs
    else
      match splitOnChar sep cs with
      | [] => [[c]]
      | w :: ws => (c :: w) :: ws

/-- `'\n'.join(pieces)`. -/
def joinLines : List (List Char) → List Char
  | [] => []
  | [l] => l
  | l :: l2 :: ls => l ++ '\n' :: joinLines (l2 :: ls)

/-- `content.split("---", 2)`: cut at the leftmost non-overlapping
occurrences of `"---"`, at most `maxsplit` times. -/
def pySplit3Dash : Nat → List Char → List Char → List (List Char)
  | _, [], acc => [acc.reverse]
  | 0, rest, acc => [acc.reverse ++ rest]
  | m + 1, '-' :: '-' :: '-' :: rest, acc => acc.reverse :: pySplit3Dash m rest []
  | m + 1, c :: cs, acc => pySplit3Dash (m + 1) cs (c :: acc)

/-! ## Search engine: page-marker map (`searcher.py` lines 60-74)

`search_file` compiles only the pattern `--- Page (\d+) ---` to locate
markers; the map starts with the default pair `(0, 1)` and records each
match's **end** offset with its page number. -/

def pageMarkerHead : List Char := "--- Page ".toList
def pageMarkerTail : List Char := " ---".toList

/-- `int(m.group(1))` for a digit group. -/
def digitsToNat (ds : List Char) : Nat :=
  ds.foldl (fun acc c => acc * 10 + (c.toNat - '0'.toNat)) 0

/-- The digit run of `--- Page (\d+) ---` when matched at the head of
`xs`. -/
def markerDigits (xs : List Char) : List Char :=
  (xs.drop pageMarkerHead.length).takeWhile Char.isDigit

/-- Match the regex `--- Page (\d+) ---` at the head of `xs`: the literal
head, at least one digit (greedy), then the literal tail.  Returns
(characters consumed, page number).  No backtracking case arises: a
shorter digit group would put a digit where `" ---"` requires a space. -/
def tryPageMarker (xs : List Char) : Option (Nat × Nat) :=
  if pageMarkerHead.isPrefixOf xs ∧ markerDigits xs ≠ [] ∧
      pageMarkerTail.isPrefixOf ((xs.drop pageMarkerHead.length).drop (markerDigits xs).length)
  then some (pageMarkerHead.length + (markerDigits xs).length + pageMarkerTail.length,
             digitsToNat (markerDigits xs))
  else none

/-- `finditer` of the page-marker regex: scan left to right, skip over a
match once found (non-overlapping), and record `(m.end(), page)`.  The
fuel argument starts at the text length; every step consumes at least one
character, so it never runs out. -/
def findPageMarkersAux : Nat → List Char → Nat → List (Nat × Nat)
  | 0, _, _ => []
  | _ + 1, [], _ => []
  | fuel + 1, c :: cs, off =>
    match tryPageMarker (c :: cs) with
    | some (k, n) => (off + k, n) :: findPageMarkersAux fuel ((c :: cs).drop k) (off + k)
    | none => findPageMarkersAux fuel cs (off + 1)

def findPageMarkers (content : List Char) : List (Nat × Nat) :=
  findPageMarkersAux content.length content 0

/-- lines 62-64: `page_positions = [(0, 1)]` followed by one pair per
regex match. -/
def page_positions (content : List Char) : List (Nat × Nat) :=
  (0, 1) :: findPageMarkers content

/-- lines 66-74, `get_page_for_position`: walk the pairs in order, keep
the page of every pair whose offset is `≤ pos`, stop at the first larger
offset (`break`). -/
def pageLoop : List (Nat × Nat) → Nat → Nat → Nat
  | [], _, page => page
  | (s, n) :: rest, pos, page =>
    if s ≤ pos then pageLoop rest pos n else page

def get_page_for_position (content : List Char) (pos : Nat) : Nat :=
  pageLoop (page_positions content) pos 1

/-- The selection rule the spec states: the locator of the recorded pair
whose offset is the largest one `≤ pos` (default 1). -/
def lastLocatorLE (ps : List (Nat × Nat)) (pos : Nat) : Nat :=
  ((ps.filter (fun q => q.1 ≤ pos)).map Prod.snd).getLastD 1

/-! ## Search engine: context window (`searcher.py` lines 86-112) -/

/-- lines 92-93: `while ctx_start > 0 and content[ctx_start - 1] not in
" \n\t": ctx_start -= 1`. -/
def expandLeft (content : List Char) : Nat → Nat
  | 0 => 0
  | s + 1 => if boundaryWS (content.getD s ' ') then s + 1 else expandLeft content s

/-- lines 94-95: `while ctx_end < len(content) and content[ctx_end] not in
" \n\t": ctx_end += 1`.  The fuel starts at `len(content) - ctx_end`,
exactly the number of remaining steps. -/
def expandRightAux (content : List Char) : Nat → Nat → Nat
  | 0, e => e
  | fuel + 1, e =>
    if e < content.length then
      if boundaryWS (content.getD e ' ') then e else expandRightAux content fuel (e + 1)
    else e

def expandRight (content : List Char) (e : Nat) : Nat :=
  expandRightAux content (content.length - e) e

def dots : List Char := "...".toList

structure ContextWindow where
  ctx_start : Nat
  ctx_end : Nat
  context : List Char
deriving Repr, DecidableEq

/-- lines 86-104 for one match span `[start, stop)`: symmetric window of
`ctx_chars` (`max(0, start - c)` is truncated subtraction on `Nat`,
`min(len, stop + c)`), expansion to word boundaries, slice, strip,
whitespace collapse, and the two conditional ellipses. -/
def make_context (content : List Char) (start stop ctx_chars : Nat) : ContextWindow :=
  let cs := expandLeft content (start - ctx_chars)
  let ce := expandRight content (min content.length (stop + ctx_chars))
  let raw := (content.drop cs).take (ce - cs)
  let collapsed := joinWords (pySplitWS (pyStrip raw))
  let withL := if 0 < cs then dots ++ collapsed else collapsed
  ⟨cs, ce, if ce < content.length then withL ++ dots else withL⟩

/-! ## Search engine: per-file search and library search (`searcher.py`
lines 21-115 and 118-216)

The compiled regular expression of the user pattern is external
(`re.compile`); it is modelled by `RegexEnv`: in regex mode, `compiled`
is `none` when `re.compile` raises `re.error` and otherwise the
`finditer` span function of the compiled object; in literal mode
`re.escape` guarantees compilation succeeds with span function
`literal`. -/

structure RegexEnv where
  compiled : Option (List Char → List (Nat × Nat))
  literal : List Char → List (Nat × Nat)

/-- lines 50-58: build the regex, raising
`ValueError("Invalid regex pattern: ...")` in regex mode when compilation
fails. -/
def compile_pattern (env : RegexEnv) (is_regex : Bool) :
    Except String (List Char → List (Nat × Nat)) :=
  if is_regex then
    match env.compiled with
    | some r => .ok r
    | none => .error "Invalid regex pattern"
  else .ok env.literal

structure SearchResult where
  file_path : String
  title : List Char
  page : Nat
  context : List Char
  match_start : Nat
  match_end : Nat
deriving Repr, DecidableEq

/-- lines 76-80: the title is the file stem unless the first line starts
with `"# "`, in which case it is the rest of that line, stripped. -/
def extract_title (stem : List Char) (content : List Char) : List Char :=
  let first_line := content.takeWhile (fun c => c ≠ '\n')
  if "# ".toList.isPrefixOf first_line then pyStrip (first_line.drop 2) else stem

/-- `search_file` on a file that exists, with its content already read
(the read at line 46 happens before the pattern is compiled at lines
50-58). -/
def search_file (env : RegexEnv) (is_regex : Bool) (ctx_chars : Nat)
    (path : String) (stem : List Char) (content : List Char) :
    Except String (List SearchResult) :=
  match compile_pattern env is_regex with
  | .error e => .error e
  | .ok finditer =>
    .ok ((finditer content).map (fun span =>
      let w := make_context content span.1 span.2 ctx_chars
      { file_path := path
        title := extract_title stem content
        page := get_page_for_position content span.1
        context := w.context
        match_start := span.1 - w.ctx_start + (if 0 < w.ctx_start then 3 else 0)
        match_end := span.2 - w.ctx_start + (if 0 < w.ctx_start then 3 else 0) }))

/-- One text artifact of the library: its path, stem and content, plus
the sibling-`.pdf` relative key when that file exists (lines 184-185). -/
structure LibFile where
  path : String
  stem : List Char
  content : List Char
  pdfKey : Option String
deriving Repr

structure FileMatches where
  key : String
  title : List Char
  match_count : Nat
  match_items : List (Nat × List Char)
deriving Repr, DecidableEq

structure SearchReport where
  files_searched : Nat
  files_with_matches : Nat
  total_matches : Nat
  results : List FileMatches
deriving Repr, DecidableEq

/-- lines 180-181: `if max_results_per_file and len(results) > n` —
`0`/`None` are falsy, so they disable truncation. -/
def capResults (max_results : Option Nat) (results : List SearchResult) :
    List SearchResult :=
  match max_results with
  | some m => if 0 < m ∧ m < results.length then results.take m else results
  | none => results

/-- lines 168-206 for one file with at least one match: the per-file
result record.  `index_title` models the catalog lookup
`index["documents"][file_key]["metadata"]["title"]` (lines 189-191). -/
def fileRecord (index_title : String → Option (List Char)) (f : LibFile)
    (results : List SearchResult) : FileMatches :=
  let key := match f.pdfKey with
    | some k => k
    | none => String.mk f.stem
  let title0 := match results with
    | r :: _ => r.title
    | [] => f.stem
  { key := key
    title := (index_title key).getD title0
    match_count := results.length
    match_items := results.map (fun r => (r.page, r.context)) }

/-- The per-file loop of `search_library` (lines 168-206).  The second
component of the outcome is the list of artifact paths whose contents
were read, in order; a file's path is recorded before `search_file`
compiles the pattern, because the read at line 46 precedes compilation. -/
def search_library_aux (env : RegexEnv) (is_regex : Bool) (ctx_chars : Nat)
    (max_results : Option Nat) (index_title : String → Option (List Char))
    (files_searched : Nat) :
    List LibFile → List String → List FileMatches → Nat →
    Except String SearchReport × List String
  | [], reads, acc, total =>
    (.ok { files_searched := files_searched
           files_with_matches := acc.length
           total_matches := total
           results := acc.reverse }, reads.reverse)
  | f :: rest, reads, acc, total =>
    let reads' := f.path :: reads
    match search_file env is_regex ctx_chars f.path f.stem f.content with
    | .error e => (.error e, reads'.reverse)
    | .ok results =>
      if results.isEmpty then
        search_library_aux env is_regex ctx_chars max_results index_title
          files_searched rest reads' acc total
      else
        let capped := capResults max_results results
        search_library_aux env is_regex ctx_chars max_results index_title
          files_searched rest reads'
          (fileRecord index_title f capped :: acc) (total + capped.length)

/-- `search_library` over the already-enumerated, TOC-filtered text
artifacts, abstracting the file system by the `files` list.  Returns the
report (or the propagated `ValueError`) together with the ordered list of
files read. -/
def search_library_run (env : RegexEnv) (is_regex : Bool) (ctx_chars : Nat)
    (max_results : Option Nat) (index_title : String → Option (List Char))
    (files : List LibFile) : Except String SearchReport × List String :=
  search_library_aux env is_regex ctx_chars max_results index_title
    files.length files [] [] 0

/-! ## Markdown headings and section segmenter
(`markdown_extractor.py` lines 44-94) -/

structure TocEntry where
  level : Nat
  title : List Char
  line : Nat
deriving Repr, DecidableEq, Inhabited

/-- Match `^(#{1,6})\s+(.+)$` against the stripped line and post-process
the title (`.strip()` then `re.sub(r"\s*#+\s*$", "", title)`).  Greedy
`#{1,6}` then `\s` forces: at most six leading `#`, the next character
whitespace; `\s+` greedy then `.+` takes the rest, which is non-empty
because the stripped line cannot end in whitespace. -/
def removeTrailingHashes (t : List Char) : List Char :=
  let r := (t.reverse).dropWhile pyWS
  if r.headD ' ' = '#' then ((r.dropWhile (fun c => c = '#')).dropWhile pyWS).reverse
  else t

def headingOf (line : List Char) : Option (Nat × List Char) :=
  let s := pyStrip line
  let k := (s.takeWhile (fun c => c = '#')).length
  let rest := s.drop k
  let title := rest.dropWhile pyWS
  if 1 ≤ k ∧ k ≤ 6 ∧ pyWS (rest.headD 'x') = true ∧ title ≠ [] then
    some (k, removeTrailingHashes (pyStrip title))
  else none

/-- lines 44-63, `extract_headings`: one `TocEntry` per ATX heading line,
with the 1-based line number as locator. -/
def extract_headings (content : List Char) : List TocEntry :=
  ((splitOnChar '\n' content).enum).filterMap (fun p =>
    (headingOf p.2).map (fun q => ⟨q.1, q.2, p.1 + 1⟩))

/-- A section produced by the segmenter.  The synthetic no-boundary
section carries no `"level"` key in the source, hence `Option`. -/
structure MDSection where
  idx : Nat
  title : List Char
  level : Option Nat
  text : List Char
deriving Repr, DecidableEq

/-- `lines[a:b]`. -/
def sliceList (l : List (List Char)) (a b : Nat) : List (List Char) :=
  (l.drop a).take (b - a)

/-- The cut points of `split_into_sections` / `extract_text_by_section`:
section `i` spans from `toc[i].line - 1` (inclusive) to
`toc[i+1].line - 1` (exclusive), the last section to `L`. -/
def section_bounds (L : Nat) : List TocEntry → List (Nat × Nat)
  | [] => []
  | [e] => [(e.line - 1, L)]
  | e :: e2 :: rest => (e.line - 1, e2.line - 1) :: section_bounds L (e2 :: rest)

/-- The indexed loop of `split_into_sections` (lines 79-92), with `idx`
the 1-based section number. -/
def sectionsAux (lines : List (List Char)) (L : Nat) :
    Nat → List TocEntry → List MDSection
  | _, [] => []
  | idx, [e] =>
    [⟨idx, e.title, some e.level, pyStrip (joinLines (sliceList lines (e.line - 1) L))⟩]
  | idx, e :: e2 :: rest =>
    ⟨idx, e.title, some e.level,
      pyStrip (joinLines (sliceList lines (e.line - 1) (e2.line - 1)))⟩ ::
        sectionsAux lines L (idx + 1) (e2 :: rest)

/-- lines 71-94, `split_into_sections`: no boundaries give the single
synthetic `"Content"` section over the stripped whole input; otherwise
one section per boundary, cut at the next boundary's line. -/
def split_into_sections (content : List Char) (toc : List TocEntry) :
    List MDSection :=
  if toc = [] then [⟨1, "Content".toList, none, pyStrip content⟩]
  else
    sectionsAux (splitOnChar '\n' content) (splitOnChar '\n' content).length 1 toc

/-- `"\n\n".join(texts)`. -/
def joinParas : List (List Char) → List Char
  | [] => []
  | [p] => p
  | p :: p2 :: ps => p ++ '\n' :: '\n' :: joinParas (p2 :: ps)

/-- `para.text.strip()` truthiness filter used by the DOCX section
builder. -/
def nonBlank (p : List Char) : Bool := ¬ (pyStrip p).isEmpty

/-- The indexed loop of `extract_text_by_section`
(`docx_extractor.py` lines 84-101): identical cut arithmetic over the
paragraph sequence, joining the non-blank paragraph texts with blank
lines. -/
def docxSectionsAux (paras : List (List Char)) (L : Nat) :
    Nat → List TocEntry → List MDSection
  | _, [] => []
  | idx, [e] =>
    [⟨idx, e.title, some e.level,
      joinParas ((sliceList paras (e.line - 1) L).filter nonBlank)⟩]
  | idx, e :: e2 :: rest =>
    ⟨idx, e.title, some e.level,
      joinParas ((sliceList paras (e.line - 1) (e2.line - 1)).filter nonBlank)⟩ ::
        docxSectionsAux paras L (idx + 1) (e2 :: rest)

/-- `docx_extractor.py` lines 69-103, `extract_text_by_section`; the
`TocEntry.line` field holds the 1-based paragraph index (the dictionary
key `"paragraph"`). -/
def extract_text_by_section (paras : List (List Char)) (toc : List TocEntry) :
    List MDSection :=
  if toc = [] then
    [⟨1, "Content".toList, none, joinParas (paras.filter nonBlank)⟩]
  else docxSectionsAux paras paras.length 1 toc

/-- The partition property of the shared segmenter, for a non-empty
boundary list `toc` over the line sequence of `content` (Markdown) and
the paragraph sequence `paras` (DOCX): the cut intervals are contiguous
in boundary order, start at the first boundary's locator, end at the
sequence length, and cover `[toc[0].line - 1, L)` exactly once; both
segmenters emit one section per boundary, in order, with the boundary
titles, 1-based consecutive indices, and the texts of exactly those
slices; an empty boundary list gives the single synthetic `"Content"`
section over the whole input. -/
def SegmenterPartition (content : List Char) (paras : List (List Char))
    (toc : List TocEntry) : Prop :=
  (∀ L : Nat, (∀ e ∈ toc, e.line ≤ L) →
    List.Chain' (fun p q : Nat × Nat => p.2 = q.1) (section_bounds L toc) ∧
    (∃ a, (section_bounds L toc).getLast? = some (a, L)) ∧
    (∃ b rest', section_bounds L toc =
      ((toc.headD default).line - 1, b) :: rest') ∧
    (section_bounds L toc).length = toc.length ∧
    (∀ pos, pos < L →
      (section_bounds L toc).countP (fun p => decide (p.1 ≤ pos ∧ pos < p.2)) =
        if (toc.headD default).line - 1 ≤ pos then 1 else 0)) ∧
  ((split_into_sections content toc).length = toc.length ∧
    (split_into_sections content toc).map MDSection.title =
      toc.map TocEntry.title ∧
    (split_into_sections content toc).map MDSection.idx =
      List.range' 1 toc.length ∧
    (split_into_sections content toc).map MDSection.text =
      (section_bounds (splitOnChar '\n' content).length toc).map
        (fun p => pyStrip (joinLines
          (sliceList (splitOnChar '\n' content) p.1 p.2)))) ∧
  ((extract_text_by_section paras toc).length = toc.length ∧
    (extract_text_by_section paras toc).map MDSection.title =
      toc.map TocEntry.title ∧
    (extract_text_by_section paras toc).map MDSection.idx =
      List.range' 1 toc.length ∧
    (extract_text_by_section paras toc).map MDSection.text =
      (section_bounds paras.length toc).map
        (fun p => joinParas ((sliceList paras p.1 p.2).filter nonBlank))) ∧
  (split_into_sections content [] =
    [⟨1, "Content".toList, none, pyStrip content⟩] ∧
   extract_text_by_section paras [] =
    [⟨1, "Content".toList, none, joinParas (paras.filter nonBlank)⟩])

/-! ## Markdown frontmatter and the extraction record
(`markdown_extractor.py` lines 26-41, 97-106, 140-156)

`yaml.safe_load` is external; it is modelled by a parameter returning
`.error ()` when it raises `yaml.YAMLError`, `.ok none` when it returns a
falsy value (`None`), and `.ok (some fm)` otherwise.  A frontmatter
mapping is read back only through the fixed keys of
`extract_metadata_from_frontmatter`, so it is modelled by those fields. -/

structure Frontmatter where
  title : Option String
  author : Option String
  authors : Option String
  subject : Option String
  description : Option String
  keywords : Option (List String)
  tags : Option (List String)
  date : Option String
  category : Option String
deriving Repr, DecidableEq

def emptyFm : Frontmatter :=
  ⟨none, none, none, none, none, none, none, none, none⟩

/-- Python truthiness of an optional string (`None` and `""` are
falsy). -/
def truthyStr : Option String → Bool
  | none => false
  | some s => ¬ s.isEmpty

def truthyList : Option (List String) → Bool
  | none => false
  | some l => ¬ l.isEmpty

/-- `a or b` for optional strings: `a` when truthy, else `b`. -/
def pyOrOpt (a b : Option String) : Option String :=
  if truthyStr a then a else b

/-- `a or d` with a string default. -/
def pyOrD (a : Option String) (d : String) : String :=
  if truthyStr a then a.getD d else d

/-- lines 26-41, `extract_frontmatter`: a leading `---` block is parsed
with `yaml.safe_load`; a `YAMLError` is swallowed (`except ... pass`),
leaving the empty mapping and the whole original content as body. -/
def extract_frontmatter (yamlLoad : List Char → Except Unit (Option Frontmatter))
    (content : List Char) : Frontmatter × List Char :=
  if "---".toList.isPrefixOf content then
    let parts := pySplit3Dash 2 content []
    if 3 ≤ parts.length then
      match yamlLoad (parts.getD 1 []) with
      | .ok fm => (fm.getD emptyFm, pyStrip (parts.getD 2 []))
      | .error _ => (emptyFm, content)
    else (emptyFm, content)
  else (emptyFm, content)

structure MDMetadata where
  title : String
  author : Option String
  subject : Option String
  keywords : List String
  date : Option String
  category : Option String
deriving Repr, DecidableEq

/-- lines 97-106, `extract_metadata_from_frontmatter` (the `author` field
is normalized to a string here; list-valued authors are joined outside
the modelled core). -/
def extract_metadata_from_frontmatter (fm : Frontmatter) (stem : String) :
    MDMetadata :=
  { title := pyOrD fm.title stem
    author := pyOrOpt fm.author fm.authors
    subject := pyOrOpt fm.subject fm.description
    keywords :=
      if truthyList fm.keywords then (fm.keywords).getD []
      else if truthyList fm.tags then (fm.tags).getD [] else []
    date := fm.date
    category := fm.category }

structure MDExtract where
  metadata : MDMetadata
  page_count : Nat
  word_count : Nat
  char_count : Nat
  toc : List TocEntry
  sections : List MDSection
  frontmatter : Frontmatter
deriving Repr, DecidableEq

/-- The pure core of `extract_markdown` (lines 140-156): frontmatter and
body, metadata with statistics, headings, sections. -/
def extract_markdown_core
    (yamlLoad : List Char → Except Unit (Option Frontmatter))
    (content : List Char) (stem : String) : MDExtract :=
  let fm := (extract_frontmatter yamlLoad content).1
  let body := (extract_frontmatter yamlLoad content).2
  let toc := extract_headings body
  { metadata := extract_metadata_from_frontmatter fm stem
    page_count := estimate_pages body
    word_count := (pySplitWS body).length
    char_count := body.length
    toc := toc
    sections := split_into_sections body toc
    frontmatter := fm }

/-! ## Library indexer (`indexer.py` lines 11-111)

The catalog is a Python `dict`, modelled as an association list with
in-place replacement (insertion order preserved, as in CPython).  The
metadata and TOC values stored in entries are JSON data read from sidecar
files and never inspected by `build_index`, so they are type parameters
`M` and `T`.  The file system is abstracted by the enumerated candidate
list `files` (each with its precomputed hash, as `compute_file_hash`
would return it) and by the sidecar environment `IndexEnv`.  All
`datetime.now()` calls of one build are represented by the single
timestamp `now`. -/

structure DocEntry (M T : Type) where
  file_path : String
  file_hash : String
  metadata : M
  toc : T
  extracted : Bool
  text_file : Option String
  indexed_date : String
deriving Repr, DecidableEq

structure Catalog (M T : Type) where
  library_path : String
  created_date : String
  updated_date : String
  total_documents : Nat
  extracted_count : Nat
  documents : List (String × DocEntry M T)
deriving Repr, DecidableEq

/-- One candidate file under the library root: its relative key
(`str(pdf_path.relative_to(library_path))`), absolute path, stem,
`.txt` sibling path, and current content hash. -/
structure FileInfo where
  key : String
  absPath : String
  stem : String
  txtPath : String
  hash : String
deriving Repr, DecidableEq

/-- The sidecar artifacts next to a candidate file:
`<stem>_metadata.json` (lines 59-72) and `<name>.json` (lines 73-84),
each giving the parsed `metadata`/`toc` payload when the file exists.
`placeholderMeta` is the literal dict `{"title": pdf_path.stem}` of line
90 and `emptyToc` the literal `[]` of line 91. -/
structure IndexEnv (M T : Type) where
  metaSidecar : String → Option (M × T)
  jsonSidecar : String → Option (M × T)
  placeholderMeta : String → M
  emptyToc : T

variable {M T : Type}

/-- `documents.get(k)` / `k in documents` on a `dict` (keys are unique). -/
def alistLookup : List (String × β) → String → Option β
  | [], _ => none
  | p :: rest, k => if p.1 = k then some p.2 else alistLookup rest k

/-- `documents[file_key] = entry` on a `dict`: replace in place when the
key exists, else append. -/
def alistUpsert : List (String × β) → String → β → List (String × β)
  | [], k, v => [(k, v)]
  | p :: rest, k, v =>
    if p.1 = k then (k, v) :: rest else p :: alistUpsert rest k v

/-- lines 57-95: the entry built for a file that is (re-)indexed, by the
two-tier sidecar lookup with the placeholder fallback. -/
def newEntry (env : IndexEnv M T) (f : FileInfo) (now : String) :
    DocEntry M T :=
  match env.metaSidecar f.key with
  | some mt => ⟨f.absPath, f.hash, mt.1, mt.2, true, some f.txtPath, now⟩
  | none =>
    match env.jsonSidecar f.key with
    | some mt => ⟨f.absPath, f.hash, mt.1, mt.2, true, some f.txtPath, now⟩
    | none =>
      ⟨f.absPath, f.hash, env.placeholderMeta f.stem, env.emptyToc, false,
        none, now⟩

/-- The body of the `for pdf_path in pdf_files` loop (lines 48-95): skip
a file whose key is present with the same hash unless `force_reindex`,
else store a fresh entry. -/
def indexStep (env : IndexEnv M T) (force : Bool) (now : String)
    (docs : List (String × DocEntry M T)) (f : FileInfo) :
    List (String × DocEntry M T) :=
  match alistLookup docs f.key with
  | some e =>
    if e.file_hash = f.hash ∧ force = false then docs
    else alistUpsert docs f.key (newEntry env f now)
  | none => alistUpsert docs f.key (newEntry env f now)

/-- lines 11-111, `build_index`.  Line 37 loads the persisted index only
when it exists **and** `force_reindex` is false, so `existing` is
discarded under force; `created_date` falls back to the current time when
nothing was loaded (line 100). -/
def build_index (env : IndexEnv M T) (libPath : String)
    (existing : Option (Catalog M T)) (force : Bool)
    (files : List FileInfo) (now : String) : Catalog M T :=
  let loaded := if force then none else existing
  let docs0 := match loaded with
    | some c => c.documents
    | none => []
  let docs := files.foldl (indexStep env force now) docs0
  { library_path := libPath
    created_date := match loaded with
      | some c => c.created_date
      | none => now
    updated_date := now
    total_documents := docs.length
    extracted_count := (docs.filter (fun p => p.2.extracted)).length
    documents := docs }

/-!
# Theorems

Library lemmas first, then one theorem per claim (with its witness or
counterexample where required).
-/

theorem readChunks_nil (n : Nat) : readChunks n [] = [] := by
  simp [readChunks]

theorem readChunks_cons (n : Nat) (b : Nat) (rest : List Nat) (hn : n ≠ 0) :
    readChunks n (b :: rest) =
      (b :: rest).take n :: readChunks n ((b :: rest).drop n) := by
  rw [readChunks]
  simp [hn]

/-- Concatenating the chunks read with any positive chunk size restores
the original byte sequence. -/
theorem join_readChunks (n : Nat) (hn : 0 < n) :
    ∀ data : List Nat, (readChunks n data).foldl (· ++ ·) [] = data := by
  have key : ∀ k : Nat, ∀ data : List Nat, data.length = k →
      ∀ acc : List Nat, (readChunks n data).foldl (· ++ ·) acc = acc ++ data := by
    intro k
    induction k using Nat.strong_induction_on with
    | _ k ih =>
      intro data hlen acc
      match data with
      | [] => simp [readChunks_nil]
      | b :: rest =>
        rw [readChunks_cons n b rest (Nat.pos_iff_ne_zero.mp hn)]
        rw [List.foldl_cons]
        have hdrop : ((b :: rest).drop n).length < k := by
          subst hlen
          simp only [List.length_drop, List.length_cons]
          omega
        rw [ih _ hdrop _ rfl]
        rw [List.append_assoc, List.take_append_drop]
  intro data
  exact (key data.length data rfl []).trans (List.nil_append data)

theorem tryPageMarker_pos {xs : List Char} {k n : Nat}
    (h : tryPageMarker xs = some (k, n)) : 0 < k := by
  unfold tryPageMarker at h
  split at h
  · simp only [Option.some.injEq, Prod.mk.injEq] at h
    have h9 : pageMarkerHead.length = 9 := by decide
    omega
  · exact absurd h (by simp)

/-- C4: for every byte buffer the content hash is deterministic, in the
format `"sha256:<hex-digest>"`, and the streaming file entry point
(`compute_file_hash`, fixed-size chunks) agrees with the in-memory entry
point (`compute_data_hash`) for every positive chunk size, the code's
4096 included. -/
theorem hash_entry_points_equiv (hex : List Nat → String) (n : Nat)
    (data : List Nat) (hn : 0 < n) :
    compute_file_hash hex n data = compute_data_hash hex data ∧
    compute_data_hash hex data = "sha256:" ++ hex data := by
  constructor
  · unfold compute_file_hash compute_data_hash
    rw [join_readChunks n hn data]
  · rfl

theorem hash_entry_points_equiv_witness :
    0 < 4096 ∧
    (compute_file_hash (fun b => String.mk (b.map Char.ofNat)) 4096 [1, 2, 3] =
        compute_data_hash (fun b => String.mk (b.map Char.ofNat)) [1, 2, 3] ∧
      compute_data_hash (fun b => String.mk (b.map Char.ofNat)) [1, 2, 3] =
        "sha256:" ++ (fun b : List Nat => String.mk (b.map Char.ofNat)) [1, 2, 3]) :=
  ⟨by decide,
    hash_entry_points_equiv (fun b => String.mk (b.map Char.ofNat)) 4096 [1, 2, 3]
      (by decide)⟩

/-- C7: both page estimators compute `max(1, totalCharacters // 3000 + 1)`
with floor division, the Markdown pipeline stores that estimate of the
body, and the concrete character counts 6000, 2999 and 3000 estimate to
3, 1 and 2 pages respectively. -/
theorem estimate_pages_formula :
    (∀ content : List Char,
      estimate_pages content = max 1 (content.length / 3000 + 1)) ∧
    (∀ paras : List (List Char),
      estimate_pages_docx paras = max 1 ((paras.map List.length).sum / 3000 + 1)) ∧
    (∀ yamlLoad content stem,
      (extract_markdown_core yamlLoad content stem).page_count =
        max 1 ((extract_frontmatter yamlLoad content).2.length / 3000 + 1)) ∧
    estimate_pages (List.replicate 6000 'a') = 3 ∧
    estimate_pages (List.replicate 2999 'a') = 1 ∧
    estimate_pages (List.replicate 3000 'a') = 2 ∧
    estimate_pages_docx [List.replicate 6000 'a'] = 3 ∧
    estimate_pages_docx [List.replicate 2999 'a'] = 1 ∧
    estimate_pages_docx [List.replicate 3000 'a'] = 2 := by
  refine ⟨fun _ => rfl, fun _ => rfl, fun _ _ _ => rfl, ?_, ?_, ?_, ?_, ?_, ?_⟩ <;>
    · simp only [estimate_pages, estimate_pages_docx, List.length_replicate,
        List.map_cons, List.map_nil, List.sum_cons, List.sum_nil]
      decide

/-! ### Association-list and indexer lemmas -/

theorem alistLookup_upsert_self {β} (l : List (String × β)) (k : String) (v : β) :
    alistLookup (alistUpsert l k v) k = some v := by
  induction l with
  | nil => simp [alistUpsert, alistLookup]
  | cons p rest ih =>
    by_cases h : p.1 = k
    · simp [alistUpsert, alistLookup, h]
    · simp [alistUpsert, alistLookup, h, ih]

theorem alistLookup_upsert_ne {β} (l : List (String × β)) (k' k : String) (v : β)
    (h : k' ≠ k) : alistLookup (alistUpsert l k' v) k = alistLookup l k := by
  induction l with
  | nil => simp [alistUpsert, alistLookup, h]
  | cons p rest ih =>
    by_cases hp : p.1 = k'
    · simp [alistUpsert, alistLookup, hp, h, ih]
    · simp only [alistUpsert, hp, if_false, alistLookup]
      by_cases hk : p.1 = k <;> simp [alistLookup, hk, ih]

theorem alistLookup_isSome_upsert {β} (l : List (String × β)) (k' k : String)
    (v : β) (h : (alistLookup l k).isSome) :
    (alistLookup (alistUpsert l k' v) k).isSome := by
  by_cases hk : k' = k
  · subst hk
    simp [alistLookup_upsert_self]
  · rwa [alistLookup_upsert_ne l k' k v hk]

theorem alistLookup_mem {β} (l : List (String × β)) (k : String) (e : β)
    (h : alistLookup l k = some e) : (k, e) ∈ l := by
  induction l with
  | nil => simp [alistLookup] at h
  | cons p rest ih =>
    by_cases hp : p.1 = k
    · simp only [alistLookup, hp, if_true, Option.some.injEq] at h
      have : (k, e) = p := by
        calc (k, e) = (p.1, p.2) := by rw [hp, h]
          _ = p := rfl
      rw [this]
      exact List.mem_cons_self p rest
    · simp only [alistLookup, hp, if_false] at h
      exact List.mem_cons_of_mem p (ih h)

theorem newEntry_hash (env : IndexEnv M T) (f : FileInfo) (now : String) :
    (newEntry env f now).file_hash = f.hash := by
  unfold newEntry
  cases env.metaSidecar f.key with
  | some mt => rfl
  | none =>
    cases env.jsonSidecar f.key with
    | some mt => rfl
    | none => rfl

/-- A step for a file with another key leaves a key's binding alone. -/
theorem indexStep_lookup_ne (env : IndexEnv M T) (force : Bool) (now : String)
    (docs : List (String × DocEntry M T)) (f : FileInfo) (k : String)
    (h : f.key ≠ k) :
    alistLookup (indexStep env force now docs f) k = alistLookup docs k := by
  unfold indexStep
  cases alistLookup docs f.key with
  | some e =>
    by_cases hc : e.file_hash = f.hash ∧ force = false
    · simp [hc]
    · simp [hc, alistLookup_upsert_ne docs f.key k _ h]
  | none => simp [alistLookup_upsert_ne docs f.key k _ h]

/-- A step never drops a key. -/
theorem indexStep_isSome (env : IndexEnv M T) (force : Bool) (now : String)
    (docs : List (String × DocEntry M T)) (f : FileInfo) (k : String)
    (h : (alistLookup docs k).isSome) :
    (alistLookup (indexStep env force now docs f) k).isSome := by
  unfold indexStep
  cases alistLookup docs f.key with
  | some e =>
    by_cases hc : e.file_hash = f.hash ∧ force = false
    · simpa [hc]
    · simp only [hc, if_false]
      exact alistLookup_isSome_upsert docs f.key k _ h
  | none => exact alistLookup_isSome_upsert docs f.key k _ h

/-- Skip case: a present entry with a matching hash and no force flag
leaves the map untouched. -/
theorem indexStep_skip (env : IndexEnv M T) (now : String)
    (docs : List (String × DocEntry M T)) (f : FileInfo) (e : DocEntry M T)
    (he : alistLookup docs f.key = some e) (hh : e.file_hash = f.hash) :
    indexStep env false now docs f = docs := by
  unfold indexStep
  rw [he]
  simp [hh]

theorem foldl_indexStep_lookup_notmem (env : IndexEnv M T) (force : Bool)
    (now : String) :
    ∀ (files : List FileInfo) (docs : List (String × DocEntry M T)) (k : String),
      k ∉ files.map FileInfo.key →
      alistLookup (files.foldl (indexStep env force now) docs) k =
        alistLookup docs k := by
  intro files
  induction files with
  | nil => intro docs k _; rfl
  | cons f rest ih =>
    intro docs k hk
    simp only [List.map_cons, List.mem_cons, not_or] at hk
    rw [List.foldl_cons, ih _ k (by simpa using hk.2),
      indexStep_lookup_ne env force now docs f k (fun h => hk.1 h.symm)]

theorem foldl_indexStep_isSome (env : IndexEnv M T) (force : Bool)
    (now : String) :
    ∀ (files : List FileInfo) (docs : List (String × DocEntry M T)) (k : String),
      (alistLookup docs k).isSome →
      (alistLookup (files.foldl (indexStep env force now) docs) k).isSome := by
  intro files
  induction files with
  | nil => intro docs k h; exact h
  | cons f rest ih =>
    intro docs k h
    exact ih _ k (indexStep_isSome env force now docs f k h)

/-- After a build, every candidate file's key is bound to an entry
carrying that file's current hash (keys assumed distinct, as distinct
paths give distinct relative paths). -/
theorem foldl_indexStep_hash (env : IndexEnv M T) (force : Bool) (now : String) :
    ∀ (files : List FileInfo) (docs : List (String × DocEntry M T)),
      (files.map FileInfo.key).Nodup →
      ∀ f ∈ files, ∃ e,
        alistLookup (files.foldl (indexStep env force now) docs) f.key = some e ∧
        e.file_hash = f.hash := by
  intro files
  induction files with
  | nil => intro docs _ f hf; exact absurd hf (List.not_mem_nil f)
  | cons g rest ih =>
    intro docs hnd f hf
    have hnd' : (rest.map FileInfo.key).Nodup := (List.nodup_cons.mp hnd).2
    have hgk : g.key ∉ rest.map FileInfo.key := (List.nodup_cons.mp hnd).1
    rw [List.foldl_cons]
    rcases List.mem_cons.mp hf with hfg | hfr
    · subst hfg
      rw [foldl_indexStep_lookup_notmem env force now rest _ f.key hgk]
      unfold indexStep
      cases he : alistLookup docs f.key with
      | some e =>
        by_cases hc : e.file_hash = f.hash ∧ force = false
        · simp only [hc, if_true]
          exact ⟨e, he, hc.1⟩
        · simp only [hc, if_false]
          exact ⟨newEntry env f now, alistLookup_upsert_self docs f.key _,
            newEntry_hash env f now⟩
      | none =>
        exact ⟨newEntry env f now, alistLookup_upsert_self docs f.key _,
          newEntry_hash env f now⟩
    · exact ih _ hnd' f hfr

/-- When a key's current binding already has the file's hash and no force
flag is set, the whole fold leaves that binding unchanged. -/
theorem foldl_indexStep_keep (env : IndexEnv M T) (now : String) :
    ∀ (files : List FileInfo) (docs : List (String × DocEntry M T)),
      (files.map FileInfo.key).Nodup →
      ∀ f ∈ files, ∀ e, alistLookup docs f.key = some e → e.file_hash = f.hash →
        alistLookup (files.foldl (indexStep env false now) docs) f.key = some e := by
  intro files
  induction files with
  | nil => intro docs _ f hf; exact absurd hf (List.not_mem_nil f)
  | cons g rest ih =>
    intro docs hnd f hf e he hh
    have hnd' : (rest.map FileInfo.key).Nodup := (List.nodup_cons.mp hnd).2
    have hgk : g.key ∉ rest.map FileInfo.key := (List.nodup_cons.mp hnd).1
    rw [List.foldl_cons]
    rcases List.mem_cons.mp hf with hfg | hfr
    · subst hfg
      rw [foldl_indexStep_lookup_notmem env false now rest _ f.key hgk,
        indexStep_skip env now docs f e he hh]
      exact he
    · have hgf : g.key ≠ f.key := by
        intro hcon
        exact hgk (hcon ▸ List.mem_map_of_mem FileInfo.key hfr)
      exact ih _ hnd' f hfr e
        (by rw [indexStep_lookup_ne env false now docs g f.key hgf]; exact he) hh

/-- When every file's key is already bound with its current hash, the
whole fold is the identity. -/
theorem foldl_indexStep_all_match (env : IndexEnv M T) (now : String) :
    ∀ (files : List FileInfo) (docs : List (String × DocEntry M T)),
      (∀ f ∈ files, ∃ e, alistLookup docs f.key = some e ∧ e.file_hash = f.hash) →
      files.foldl (indexStep env false now) docs = docs := by
  intro files
  induction files with
  | nil => intro docs _; rfl
  | cons g rest ih =>
    intro docs hall
    obtain ⟨e, he, hh⟩ := hall g (List.mem_cons_self g rest)
    rw [List.foldl_cons, indexStep_skip env now docs g e he hh]
    exact ih docs (fun f hf => hall f (List.mem_cons_of_mem g hf))

/-- Unfolding `build_index` in the unforced case. -/
theorem build_index_def_false (env : IndexEnv M T) (lib : String)
    (prior : Catalog M T) (files : List FileInfo) (now : String) :
    build_index env lib (some prior) false files now =
      { library_path := lib
        created_date := prior.created_date
        updated_date := now
        total_documents :=
          (files.foldl (indexStep env false now) prior.documents).length
        extracted_count :=
          ((files.foldl (indexStep env false now) prior.documents).filter
            (fun p => p.2.extracted)).length
        documents := files.foldl (indexStep env false now) prior.documents } :=
  rfl

/-- C3: with `force_reindex=false`, a prior entry whose stored hash equals
the file's current hash is kept verbatim (re-extraction skipped), and a
second build over unchanged sources returns the first catalog with only
`updated_date` replaced. -/
theorem build_index_incremental (env : IndexEnv M T) (lib : String)
    (prior : Catalog M T) (files : List FileInfo) (now1 now2 : String)
    (hnd : (files.map FileInfo.key).Nodup) :
    (∀ f ∈ files, ∀ e, alistLookup prior.documents f.key = some e →
      e.file_hash = f.hash →
      alistLookup (build_index env lib (some prior) false files now1).documents
        f.key = some e) ∧
    build_index env lib
        (some (build_index env lib (some prior) false files now1)) false files
        now2 =
      { build_index env lib (some prior) false files now1 with
          updated_date := now2 } := by
  constructor
  · intro f hf e he hh
    exact foldl_indexStep_keep env now1 files prior.documents hnd f hf e he hh
  · have hdocs :
        files.foldl (indexStep env false now2)
          (build_index env lib (some prior) false files now1).documents =
        (build_index env lib (some prior) false files now1).documents := by
      apply foldl_indexStep_all_match
      intro f hf
      exact foldl_indexStep_hash env false now1 files prior.documents hnd f hf
    rw [build_index_def_false env lib _ files now2, hdocs,
      build_index_def_false env lib prior files now1]

/-- C5 (amended): `updated_date` is the current build time on every
rebuild; `created_date` is preserved from the prior catalog when the
force flag is off, but a forced rebuild does not load the prior catalog
and resets `created_date` to the current build time as well. -/
theorem build_index_dates (env : IndexEnv M T) (lib : String)
    (prior : Catalog M T) (files : List FileInfo) (now : String) :
    (build_index env lib (some prior) false files now).created_date =
      prior.created_date ∧
    (build_index env lib (some prior) false files now).updated_date = now ∧
    (build_index env lib (some prior) true files now).created_date = now ∧
    (build_index env lib (some prior) true files now).updated_date = now :=
  ⟨rfl, rfl, rfl, rfl⟩

/-- Concrete indexer fixtures used by the indexer claims. -/
def cEnv : IndexEnv String (List String) :=
  ⟨fun _ => none, fun _ => none, fun s => s, []⟩

def cEntryA : DocEntry String (List String) :=
  ⟨"/lib/a.pdf", "sha256:aa", "A", [], true, some "/lib/a.txt", "2020-01-01"⟩

def cPrior : Catalog String (List String) :=
  ⟨"/lib", "2020-01-01", "2020-01-02", 1, 1, [("a.pdf", cEntryA)]⟩

def cFileA : FileInfo :=
  ⟨"a.pdf", "/lib/a.pdf", "a", "/lib/a.txt", "sha256:aa"⟩

theorem build_index_incremental_witness :
    ([cFileA].map FileInfo.key).Nodup ∧
    ((∀ f ∈ [cFileA], ∀ e, alistLookup cPrior.documents f.key = some e →
        e.file_hash = f.hash →
        alistLookup
          (build_index cEnv "/lib" (some cPrior) false [cFileA]
            "2025-06-01").documents f.key = some e) ∧
      build_index cEnv "/lib"
          (some (build_index cEnv "/lib" (some cPrior) false [cFileA]
            "2025-06-01")) false [cFileA] "2025-06-02" =
        { build_index cEnv "/lib" (some cPrior) false [cFileA] "2025-06-01" with
            updated_date := "2025-06-02" }) :=
  ⟨by decide,
    build_index_incremental cEnv "/lib" cPrior [cFileA] "2025-06-01" "2025-06-02"
      (by decide)⟩

/-- Counterexample to C5 as stated: a rebuild with the force flag set does
not preserve `created_date` — the prior catalog (created 2020-01-01) is
not even loaded, and `created_date` becomes the current build time. -/
theorem build_index_force_resets_created_cex :
    (build_index cEnv "/lib" (some cPrior) true [] "2025-06-01").created_date =
      "2025-06-01" ∧
    cPrior.created_date = "2020-01-01" ∧
    ("2025-06-01" : String) ≠ "2020-01-01" :=
  ⟨rfl, rfl, by decide⟩

/-- C10 (amended): with `force_reindex=false` over an existing catalog no
key is dropped; an entry whose key matches no current file (a stale
entry) is kept verbatim, appears among `documents`, and is counted by
`total_documents` (the map's size) and, when extracted, by
`extracted_count`. -/
theorem build_index_keeps_stale_entries (env : IndexEnv M T) (lib : String)
    (prior : Catalog M T) (files : List FileInfo) (now : String) (k : String)
    (e : DocEntry M T) (hk : alistLookup prior.documents k = some e)
    (hnot : k ∉ files.map FileInfo.key) :
    alistLookup (build_index env lib (some prior) false files now).documents k =
      some e ∧
    (k, e) ∈ (build_index env lib (some prior) false files now).documents ∧
    (build_index env lib (some prior) false files now).total_documents =
      (build_index env lib (some prior) false files now).documents.length ∧
    (e.extracted = true →
      (k, e) ∈ (build_index env lib (some prior) false files now).documents.filter
        (fun p => p.2.extracted)) ∧
    (∀ k', (alistLookup prior.documents k').isSome →
      (alistLookup (build_index env lib (some prior) false files now).documents
        k').isSome) := by
  have hlook :
      alistLookup (build_index env lib (some prior) false files now).documents k =
        some e := by
    show alistLookup (files.foldl (indexStep env false now) prior.documents) k =
      some e
    rw [foldl_indexStep_lookup_notmem env false now files prior.documents k hnot]
    exact hk
  have hmem := alistLookup_mem _ k e hlook
  refine ⟨hlook, hmem, rfl, ?_, ?_⟩
  · intro hx
    exact List.mem_filter.mpr ⟨hmem, by simpa using hx⟩
  · intro k' h
    exact foldl_indexStep_isSome env false now files prior.documents k' h

theorem build_index_keeps_stale_entries_witness :
    alistLookup cPrior.documents "a.pdf" = some cEntryA ∧
    "a.pdf" ∉ ([] : List FileInfo).map FileInfo.key ∧
    (alistLookup
        (build_index cEnv "/lib" (some cPrior) false [] "2025-06-01").documents
        "a.pdf" = some cEntryA ∧
      ("a.pdf", cEntryA) ∈
        (build_index cEnv "/lib" (some cPrior) false [] "2025-06-01").documents ∧
      (build_index cEnv "/lib" (some cPrior) false [] "2025-06-01").total_documents =
        (build_index cEnv "/lib" (some cPrior) false []
          "2025-06-01").documents.length ∧
      (cEntryA.extracted = true →
        ("a.pdf", cEntryA) ∈
          (build_index cEnv "/lib" (some cPrior) false []
            "2025-06-01").documents.filter (fun p => p.2.extracted)) ∧
      (∀ k', (alistLookup cPrior.documents k').isSome →
        (alistLookup
          (build_index cEnv "/lib" (some cPrior) false []
            "2025-06-01").documents k').isSome)) :=
  ⟨rfl, by decide,
    build_index_keeps_stale_entries cEnv "/lib" cPrior [] "2025-06-01" "a.pdf"
      cEntryA rfl (by decide)⟩

/-- Counterexample to C10's universal clause "no operation ever removes an
entry": a build with the force flag ignores the prior catalog, so a stale
entry — present before — is gone afterwards. -/
theorem build_index_force_drops_entries_cex :
    (alistLookup cPrior.documents "a.pdf").isSome = true ∧
    (build_index cEnv "/lib" (some cPrior) true [] "2025-06-01").documents =
      [] ∧
    alistLookup
        (build_index cEnv "/lib" (some cPrior) true [] "2025-06-01").documents
        "a.pdf" = none :=
  ⟨rfl, rfl, rfl⟩

/-! ### Page-marker map lemmas -/

theorem findPageMarkersAux_bounds :
    ∀ (fuel : Nat) (xs : List Char) (off : Nat),
      (∀ p ∈ findPageMarkersAux fuel xs off, off < p.1) ∧
      (findPageMarkersAux fuel xs off).Pairwise (fun a b => a.1 < b.1) := by
  intro fuel
  induction fuel with
  | zero => intro xs off; simp [findPageMarkersAux]
  | succ fuel ih =>
    intro xs off
    match xs with
    | [] => simp [findPageMarkersAux]
    | c :: cs =>
      simp only [findPageMarkersAux]
      cases h : tryPageMarker (c :: cs) with
      | none =>
        obtain ⟨ihb, ihp⟩ := ih cs (off + 1)
        exact ⟨fun p hp => Nat.lt_of_succ_le (Nat.le_of_lt (ihb p hp)), ihp⟩
      | some kn =>
        obtain ⟨k, n⟩ := kn
        have hk : 0 < k := tryPageMarker_pos h
        obtain ⟨ihb, ihp⟩ := ih ((c :: cs).drop k) (off + k)
        constructor
        · intro p hp
          rcases List.mem_cons.mp hp with hph | hpt
          · rw [hph]; omega
          · have := ihb p hpt; omega
        · refine List.pairwise_cons.mpr ⟨?_, ihp⟩
          intro p hp
          exact ihb p hp

/-- The recorded marker offsets are strictly increasing, starting after
the default pair `(0, 1)`. -/
theorem page_positions_sorted (content : List Char) :
    (page_positions content).Pairwise (fun a b => a.1 < b.1) := by
  unfold page_positions findPageMarkers
  refine List.pairwise_cons.mpr ⟨?_, (findPageMarkersAux_bounds _ content 0).2⟩
  intro p hp
  exact (findPageMarkersAux_bounds _ content 0).1 p hp

/-- On a list with strictly increasing offsets, the break-early loop of
`get_page_for_position` selects the locator of the last pair whose offset
is `≤ pos`. -/
theorem pageLoop_eq_lastLocator :
    ∀ ps : List (Nat × Nat), ps.Pairwise (fun a b => a.1 < b.1) →
      ∀ pos d, pageLoop ps pos d =
        ((ps.filter (fun q => q.1 ≤ pos)).map Prod.snd).getLastD d := by
  intro ps
  induction ps with
  | nil => intro _ pos d; rfl
  | cons p rest ih =>
    intro hpw pos d
    obtain ⟨s, n⟩ := p
    obtain ⟨hhead, htail⟩ := List.pairwise_cons.mp hpw
    by_cases h : s ≤ pos
    · have hfilter :
          ((s, n) :: rest).filter (fun q => q.1 ≤ pos) =
            (s, n) :: rest.filter (fun q => q.1 ≤ pos) := by
        simp [List.filter_cons, h]
      rw [hfilter]
      simp only [pageLoop, if_pos h, List.map_cons, List.getLastD_cons]
      exact ih htail pos n
    · have hfilter : rest.filter (fun q => q.1 ≤ pos) = [] := by
        apply List.filter_eq_nil_iff.mpr
        intro q hq
        have : s < q.1 := hhead q hq
        simp only [decide_eq_true_eq]
        omega
      have hfilter2 : ((s, n) :: rest).filter (fun q => q.1 ≤ pos) = [] := by
        simp [List.filter_cons, h, hfilter]
      rw [hfilter2]
      simp [pageLoop, h]

/-- C1 (amended): the locator map is built from the `--- Page N ---`
marker lines only (each recorded at the marker's end offset, after the
default pair `(0, 1)`); its offsets are strictly increasing, and each
match start is assigned the locator of the recorded pair whose offset is
the largest one `≤` the start — so a match before every recorded marker
gets locator 1.  Section markers do not enter the map (see the
counterexample). -/
theorem page_map_selection (content : List Char) :
    (page_positions content).Pairwise (fun a b => a.1 < b.1) ∧
    ∀ pos, get_page_for_position content pos =
      lastLocatorLE (page_positions content) pos := by
  refine ⟨page_positions_sorted content, fun pos => ?_⟩
  unfold get_page_for_position lastLocatorLE
  exact pageLoop_eq_lastLocator (page_positions content)
    (page_positions_sorted content) pos 1

/-- The artifact text of the C1 counterexample: a Markdown/DOCX-style
section marker line followed by body text.  The match of `"world"` starts
at offset 31. -/
def cexC1 : List Char := "--- Section 2: Usage ---\nhello world".toList

/-- Counterexample to C1 as stated: the text contains a
`--- Section N: Title ---` marker line (locator 2), yet the locator map
records no pair for it — `page_positions` is just the default
`[(0, 1)]` — and a match starting after the marker is assigned locator 1,
not 2.  Only `--- Page N ---` markers are parsed
(`searcher.py` line 61). -/
theorem page_map_ignores_section_markers_cex :
    "--- Section 2: Usage ---".toList.isPrefixOf cexC1 = true ∧
    page_positions cexC1 = [(0, 1)] ∧
    get_page_for_position cexC1 31 = 1 ∧
    (1 : Nat) ≠ 2 := by
  refine ⟨by decide, by decide, by decide, by decide⟩

/-! ### Search-call failure on an invalid pattern -/

/-- C6 (amended): in regex mode with a pattern that does not compile, the
whole `search_library` call fails with the `InvalidPattern` error and no
partial results whenever at least one text artifact is scanned — but the
error is raised inside the first per-file `search_file` call, after that
file's content has been read, not before touching any file; exactly the
first artifact is read. -/
theorem invalid_regex_fails_whole_call (env : RegexEnv) (ctx : Nat)
    (mr : Option Nat) (ititle : String → Option (List Char)) (f : LibFile)
    (rest : List LibFile) (hc : env.compiled = none) :
    search_library_run env true ctx mr ititle (f :: rest) =
      (.error "Invalid regex pattern", [f.path]) := by
  unfold search_library_run search_library_aux search_file compile_pattern
  rw [hc]
  rfl

/-- Concrete search fixtures for C6. -/
def badEnv : RegexEnv := ⟨none, fun _ => []⟩

def cexFile : LibFile := ⟨"lib/doc.txt", "doc".toList, "hello world".toList, none⟩

theorem invalid_regex_fails_whole_call_witness :
    badEnv.compiled = none ∧
    search_library_run badEnv true 80 none (fun _ => none) [cexFile] =
      (.error "Invalid regex pattern", ["lib/doc.txt"]) :=
  ⟨rfl, invalid_regex_fails_whole_call badEnv 80 none (fun _ => none) cexFile []
    rfl⟩

/-- Counterexample to C6 as stated: the failing call does touch a file —
the first artifact is read before the pattern is compiled (line 46 versus
lines 50-55 of `searcher.py`) — and over a library with no text artifacts
an invalid regex does not fail the call at all: the loop body never runs,
so a normal empty report is returned. -/
theorem invalid_regex_touches_first_file_cex :
    (search_library_run badEnv true 80 none (fun _ => none) [cexFile]).2 =
      ["lib/doc.txt"] ∧
    (["lib/doc.txt"] : List String) ≠ [] ∧
    (search_library_run badEnv true 80 none (fun _ => none) []).1 =
      .ok ⟨0, 0, 0, []⟩ := by
  refine ⟨rfl, by decide, rfl⟩

/-! ### Section segmenter lemmas -/

theorem section_bounds_length (L : Nat) :
    ∀ toc : List TocEntry, (section_bounds L toc).length = toc.length
  | [] => rfl
  | [_] => rfl
  | e :: e2 :: rest => by
    simp [section_bounds, section_bounds_length L (e2 :: rest)]

theorem section_bounds_head (L : Nat) :
    ∀ (e : TocEntry) (toc : List TocEntry), ∃ b rest',
      section_bounds L (e :: toc) = (e.line - 1, b) :: rest'
  | _, [] => ⟨L, [], rfl⟩
  | _, e2 :: rest => ⟨e2.line - 1, section_bounds L (e2 :: rest), rfl⟩

theorem section_bounds_chain (L : Nat) :
    ∀ toc : List TocEntry,
      List.Chain' (fun p q : Nat × Nat => p.2 = q.1) (section_bounds L toc)
  | [] => List.chain'_nil
  | [_] => List.chain'_singleton _
  | e :: e2 :: rest => by
    rw [section_bounds]
    refine List.chain'_cons'.mpr ⟨?_, section_bounds_chain L (e2 :: rest)⟩
    intro y hy
    obtain ⟨b, rest', hb⟩ := section_bounds_head L e2 rest
    rw [hb] at hy
    simp only [List.head?_cons, Option.mem_def, Option.some.injEq] at hy
    rw [← hy]

theorem section_bounds_last (L : Nat) :
    ∀ toc : List TocEntry, toc ≠ [] →
      ∃ a, (section_bounds L toc).getLast? = some (a, L)
  | [], h => absurd rfl h
  | [e], _ => ⟨e.line - 1, rfl⟩
  | e :: e2 :: rest, _ => by
    obtain ⟨a, ha⟩ := section_bounds_last L (e2 :: rest) (by simp)
    refine ⟨a, ?_⟩
    rw [section_bounds]
    rw [List.getLast?_cons, ← ha]
    obtain ⟨b, rest', hb⟩ := section_bounds_head L e2 rest
    rw [hb]
    simp [List.getLastD_cons, List.getLast?_cons]

/-- Exact-once coverage of `[head.line - 1, L)` by the cut intervals, for
a strictly increasing, in-range boundary list. -/
theorem section_bounds_cover (L : Nat) :
    ∀ toc : List TocEntry,
      List.Chain' (fun a b : TocEntry => a.line < b.line) toc →
      (∀ e ∈ toc, 1 ≤ e.line ∧ e.line ≤ L) →
      ∀ e₀, toc.head? = some e₀ →
      ∀ pos, pos < L →
        (section_bounds L toc).countP
            (fun p => decide (p.1 ≤ pos ∧ pos < p.2)) =
          if e₀.line - 1 ≤ pos then 1 else 0
  | [], _, _, e₀, h, _, _ => by simp at h
  | [e], _, hb, e₀, hh, pos, hpos => by
    simp only [List.head?_cons, Option.some.injEq] at hh
    subst hh
    simp only [section_bounds, List.countP_cons, List.countP_nil]
    by_cases h : e.line - 1 ≤ pos
    · simp [h, hpos]
    · simp [h]
  | e :: e2 :: rest, hc, hb, e₀, hh, pos, hpos => by
    simp only [List.head?_cons, Option.some.injEq] at hh
    subst hh
    have hc' : List.Chain' (fun a b : TocEntry => a.line < b.line) (e2 :: rest) :=
      (List.chain'_cons'.mp hc).2
    have hlt : e.line < e2.line := (List.chain'_cons.mp hc).1
    have hb' : ∀ x ∈ e2 :: rest, 1 ≤ x.line ∧ x.line ≤ L := by
      intro x hx
      exact hb x (List.mem_cons_of_mem e hx)
    have h1 : 1 ≤ e.line := (hb e (List.mem_cons_self _ _)).1
    have h2 : 1 ≤ e2.line := (hb' e2 (List.mem_cons_self _ _)).1
    have ih := section_bounds_cover L (e2 :: rest) hc' hb' e2 rfl pos hpos
    rw [section_bounds, List.countP_cons, ih]
    by_cases ha : e.line - 1 ≤ pos
    · by_cases hm : pos < e2.line - 1
      · have hno : ¬ (e2.line - 1 ≤ pos) := by omega
        simp only [hno, if_false, if_pos ha]
        have hyes : (e.line - 1 ≤ pos ∧ pos < e2.line - 1) := ⟨ha, hm⟩
        simp [hyes]
      · have hge : e2.line - 1 ≤ pos := by omega
        simp only [hge, if_true, if_pos ha]
        have hno : ¬ (e.line - 1 ≤ pos ∧ pos < e2.line - 1) := by omega
        simp [hno]
        omega
    · have hno : ¬ (e2.line - 1 ≤ pos) := by omega
      simp only [hno, if_false, if_neg ha]
      have hno2 : ¬ (e.line - 1 ≤ pos ∧ pos < e2.line - 1) := by omega
      simp [hno2]
      omega

/-- The sections built by the Markdown segmenter carry the boundary
titles, consecutive 1-based indices, and exactly the text slices cut at
`section_bounds`. -/
theorem sectionsAux_spec (lines : List (List Char)) (L : Nat) :
    ∀ (toc : List TocEntry) (idx : Nat),
      (sectionsAux lines L idx toc).length = toc.length ∧
      (sectionsAux lines L idx toc).map MDSection.title =
        toc.map TocEntry.title ∧
      (sectionsAux lines L idx toc).map MDSection.idx =
        List.range' idx toc.length ∧
      (sectionsAux lines L idx toc).map MDSection.text =
        (section_bounds L toc).map
          (fun p => pyStrip (joinLines (sliceList lines p.1 p.2)))
  | [], idx => by simp [sectionsAux, section_bounds]
  | [e], idx => by simp [sectionsAux, section_bounds, List.range']
  | e :: e2 :: rest, idx => by
    obtain ⟨ihl, iht, ihi, ihx⟩ := sectionsAux_spec lines L (e2 :: rest) (idx + 1)
    refine ⟨?_, ?_, ?_, ?_⟩
    · simp only [sectionsAux, List.length_cons, ihl]
    · simp only [sectionsAux, List.map_cons, iht]
    · simp only [sectionsAux, List.map_cons, ihi, List.length_cons,
        List.range'_succ]
    · simp only [sectionsAux, section_bounds, List.map_cons, ihx]

/-- Same for the DOCX variant, whose slices keep only non-blank
paragraphs joined by blank lines. -/
theorem docxSectionsAux_spec (paras : List (List Char)) (L : Nat) :
    ∀ (toc : List TocEntry) (idx : Nat),
      (docxSectionsAux paras L idx toc).length = toc.length ∧
      (docxSectionsAux paras L idx toc).map MDSection.title =
        toc.map TocEntry.title ∧
      (docxSectionsAux paras L idx toc).map MDSection.idx =
        List.range' idx toc.length ∧
      (docxSectionsAux paras L idx toc).map MDSection.text =
        (section_bounds L toc).map
          (fun p => joinParas ((sliceList paras p.1 p.2).filter nonBlank))
  | [], idx => by simp [docxSectionsAux, section_bounds]
  | [e], idx => by simp [docxSectionsAux, section_bounds, List.range']
  | e :: e2 :: rest, idx => by
    obtain ⟨ihl, iht, ihi, ihx⟩ := docxSectionsAux_spec paras L (e2 :: rest) (idx + 1)
    refine ⟨?_, ?_, ?_, ?_⟩
    · simp only [docxSectionsAux, List.length_cons, ihl]
    · simp only [docxSectionsAux, List.map_cons, iht]
    · simp only [docxSectionsAux, List.map_cons, ihi, List.length_cons,
        List.range'_succ]
    · simp only [docxSectionsAux, section_bounds, List.map_cons, ihx]

/-- C2 (amended): for a non-empty, strictly increasing, in-range boundary
list the segmenter cuts contiguous, non-overlapping sections in boundary
order that cover `[toc[0].line - 1, L)` exactly once — the portion of the
input before the first boundary belongs to no section (see the
counterexample for why `[0, L)` fails) — with the final section running
to the end; with no boundaries it emits exactly one synthetic
`"Content"` section spanning the whole input. -/
theorem segmenter_partition (content : List Char) (paras : List (List Char))
    (toc : List TocEntry) (hne : toc ≠ [])
    (hsort : List.Chain' (fun a b : TocEntry => a.line < b.line) toc)
    (hone : ∀ e ∈ toc, 1 ≤ e.line) :
    SegmenterPartition content paras toc := by
  obtain ⟨e, toc', rfl⟩ : ∃ e toc', toc = e :: toc' := by
    cases toc with
    | nil => exact absurd rfl hne
    | cons e toc' => exact ⟨e, toc', rfl⟩
  refine ⟨?_, ?_, ?_, rfl, rfl⟩
  · intro L hL
    refine ⟨section_bounds_chain L _, section_bounds_last L _ (by simp), ?_,
      section_bounds_length L _, ?_⟩
    · simpa using section_bounds_head L e toc'
    · intro pos hpos
      simpa using
        section_bounds_cover L (e :: toc') hsort
          (fun x hx => ⟨hone x hx, hL x hx⟩) e rfl pos hpos
  · unfold split_into_sections
    rw [if_neg hne]
    obtain ⟨hl, ht, hi, hx⟩ :=
      sectionsAux_spec (splitOnChar '\n' content)
        (splitOnChar '\n' content).length (e :: toc') 1
    exact ⟨hl, ht, hi, hx⟩
  · unfold extract_text_by_section
    rw [if_neg hne]
    obtain ⟨hl, ht, hi, hx⟩ :=
      docxSectionsAux_spec paras paras.length (e :: toc') 1
    exact ⟨hl, ht, hi, hx⟩

/-- Concrete segmenter fixtures. -/
def wToc : List TocEntry := [⟨1, "A".toList, 1⟩, ⟨2, "B".toList, 3⟩]

def wContent : List Char := "# A\nax\n## B\nby".toList

def wParas : List (List Char) := ["# A".toList, "ax".toList, "## B".toList, "by".toList]

theorem segmenter_partition_witness :
    wToc ≠ [] ∧
    List.Chain' (fun a b : TocEntry => a.line < b.line) wToc ∧
    (∀ e ∈ wToc, 1 ≤ e.line) ∧
    SegmenterPartition wContent wParas wToc := by
  have hchain : List.Chain' (fun a b : TocEntry => a.line < b.line) wToc :=
    List.chain'_cons.mpr ⟨by decide, List.chain'_singleton _⟩
  exact ⟨by decide, hchain, by decide,
    segmenter_partition wContent wParas wToc (by decide) hchain (by decide)⟩

/-- The C2 counterexample: one line of content precedes the single
heading boundary at line 2. -/
def cexC2content : List Char := "intro\n# Head".toList

def cexC2toc : List TocEntry := [⟨1, "Head".toList, 2⟩]

/-- Counterexample to C2 as stated: with boundary list `[line 2]` over the
two-line input, the only section is `lines[1:2]` — unit 0 (`"intro"`) is
covered by no section, so the sections do not cover `[0, L)`; these are
exactly the boundaries `extract_headings` produces for this content. -/
theorem segmenter_misses_leading_units_cex :
    extract_headings cexC2content = cexC2toc ∧
    split_into_sections cexC2content cexC2toc =
      [⟨1, "Head".toList, some 1, "# Head".toList⟩] ∧
    section_bounds 2 cexC2toc = [(1, 2)] ∧
    (section_bounds 2 cexC2toc).countP
      (fun p => decide (p.1 ≤ 0 ∧ 0 < p.2)) = 0 := by
  refine ⟨by decide, by decide, by decide, by decide⟩

/-! ### Frontmatter leniency -/

/-- C9: when the content opens with a `---`-delimited frontmatter block
whose YAML parse raises, `extract_frontmatter` swallows the failure and
returns the empty mapping together with the **entire original content**
(delimiters included) as body; the metadata derived from the empty
mapping is all fallbacks (title = filename stem, no author/subject,
empty keywords), and the headings, sections and statistics of the
extraction record are computed over that full original content. -/
theorem frontmatter_error_swallowed
    (yamlLoad : List Char → Except Unit (Option Frontmatter))
    (content : List Char) (stem : String)
    (hpre : "---".toList.isPrefixOf content = true)
    (hparts : 3 ≤ (pySplit3Dash 2 content []).length)
    (herr : yamlLoad ((pySplit3Dash 2 content []).getD 1 []) = .error ()) :
    extract_frontmatter yamlLoad content = (emptyFm, content) ∧
    extract_metadata_from_frontmatter emptyFm stem =
      ⟨stem, none, none, [], none, none⟩ ∧
    extract_markdown_core yamlLoad content stem =
      { metadata := ⟨stem, none, none, [], none, none⟩
        page_count := estimate_pages content
        word_count := (pySplitWS content).length
        char_count := content.length
        toc := extract_headings content
        sections := split_into_sections content (extract_headings content)
        frontmatter := emptyFm } := by
  have h1 : extract_frontmatter yamlLoad content = (emptyFm, content) := by
    unfold extract_frontmatter
    simp only [hpre, if_true]
    rw [if_pos hparts, herr]
  refine ⟨h1, rfl, ?_⟩
  unfold extract_markdown_core
  rw [h1]
  rfl

/-- Fixtures for the C9 witness: a frontmatter block whose YAML fails to
parse (`failLoad` models `yaml.safe_load` raising on it). -/
def failLoad : List Char → Except Unit (Option Frontmatter) := fun _ => .error ()

def cexC9content : List Char := "---\ntitle: [broken\n---\n# T\nbody".toList

theorem frontmatter_error_swallowed_witness :
    "---".toList.isPrefixOf cexC9content = true ∧
    3 ≤ (pySplit3Dash 2 cexC9content []).length ∧
    failLoad ((pySplit3Dash 2 cexC9content []).getD 1 []) = .error () ∧
    (extract_frontmatter failLoad cexC9content = (emptyFm, cexC9content) ∧
      extract_metadata_from_frontmatter emptyFm "doc" =
        ⟨"doc", none, none, [], none, none⟩ ∧
      extract_markdown_core failLoad cexC9content "doc" =
        { metadata := ⟨"doc", none, none, [], none, none⟩
          page_count := estimate_pages cexC9content
          word_count := (pySplitWS cexC9content).length
          char_count := cexC9content.length
          toc := extract_headings cexC9content
          sections := split_into_sections cexC9content
            (extract_headings cexC9content)
          frontmatter := emptyFm }) :=
  ⟨by decide, by decide, rfl,
    frontmatter_error_swallowed failLoad cexC9content "doc" (by decide)
      (by decide) rfl⟩

/-! ### Context-window lemmas -/

theorem expandLeft_succ (content : List Char) (s : Nat) :
    expandLeft content (s + 1) =
      if boundaryWS (content.getD s ' ') then s + 1 else expandLeft content s :=
  rfl

theorem expandLeft_le (content : List Char) :
    ∀ s, expandLeft content s ≤ s := by
  intro s
  induction s with
  | zero => exact Nat.le_refl 0
  | succ s ih =>
    rw [expandLeft_succ]
    by_cases h : boundaryWS (content.getD s ' ') = true
    · rw [if_pos h]
    · rw [if_neg h]
      exact Nat.le_succ_of_le ih

theorem expandLeft_zero (content : List Char) : expandLeft content 0 = 0 := rfl

theorem expandLeft_boundary (content : List Char) :
    ∀ s, expandLeft content s = 0 ∨
      boundaryWS (content.getD (expandLeft content s - 1) ' ') = true := by
  intro s
  induction s with
  | zero => exact Or.inl rfl
  | succ s ih =>
    rw [expandLeft_succ]
    by_cases h : boundaryWS (content.getD s ' ') = true
    · rw [if_pos h]
      right
      simpa using h
    · rw [if_neg h]
      exact ih

theorem expandRightAux_zero (content : List Char) (e : Nat) :
    expandRightAux content 0 e = e := rfl

theorem expandRightAux_succ (content : List Char) (fuel e : Nat) :
    expandRightAux content (fuel + 1) e =
      if e < content.length then
        if boundaryWS (content.getD e ' ') then e
        else expandRightAux content fuel (e + 1)
      else e :=
  rfl

theorem expandRightAux_ge (content : List Char) :
    ∀ fuel e, e ≤ expandRightAux content fuel e := by
  intro fuel
  induction fuel with
  | zero => intro e; exact Nat.le_refl e
  | succ fuel ih =>
    intro e
    rw [expandRightAux_succ]
    by_cases h : e < content.length
    · rw [if_pos h]
      by_cases hw : boundaryWS (content.getD e ' ') = true
      · rw [if_pos hw]
      · rw [if_neg hw]
        exact Nat.le_of_succ_le (ih (e + 1))
    · rw [if_neg h]

theorem expandRightAux_le (content : List Char) :
    ∀ fuel e, expandRightAux content fuel e ≤ fuel + e := by
  intro fuel
  induction fuel with
  | zero =>
    intro e
    rw [expandRightAux_zero]
    omega
  | succ fuel ih =>
    intro e
    rw [expandRightAux_succ]
    by_cases h : e < content.length
    · rw [if_pos h]
      by_cases hw : boundaryWS (content.getD e ' ') = true
      · rw [if_pos hw]
        omega
      · rw [if_neg hw]
        have := ih (e + 1)
        omega
    · rw [if_neg h]
      omega

theorem expandRightAux_boundary (content : List Char) :
    ∀ fuel e, fuel + e = content.length →
      expandRightAux content fuel e = content.length ∨
        boundaryWS (content.getD (expandRightAux content fuel e) ' ') = true := by
  intro fuel
  induction fuel with
  | zero =>
    intro e he
    left
    rw [expandRightAux_zero]
    omega
  | succ fuel ih =>
    intro e he
    have h : e < content.length := by omega
    rw [expandRightAux_succ, if_pos h]
    by_cases hw : boundaryWS (content.getD e ' ') = true
    · rw [if_pos hw]
      exact Or.inr hw
    · rw [if_neg hw]
      exact ih (e + 1) (by omega)

theorem expandRight_ge (content : List Char) (e : Nat) :
    e ≤ expandRight content e :=
  expandRightAux_ge content (content.length - e) e

theorem expandRight_le (content : List Char) (e : Nat) (h : e ≤ content.length) :
    expandRight content e ≤ content.length := by
  have := expandRightAux_le content (content.length - e) e
  unfold expandRight
  omega

theorem expandRight_boundary (content : List Char) (e : Nat)
    (h : e ≤ content.length) :
    expandRight content e = content.length ∨
      boundaryWS (content.getD (expandRight content e) ' ') = true :=
  expandRightAux_boundary content (content.length - e) e (by omega)

theorem expandRight_at_end (content : List Char) :
    expandRight content content.length = content.length := by
  unfold expandRight
  rw [Nat.sub_self]
  rfl

/-- Every word produced by `str.split()` is non-empty and free of
whitespace. -/
theorem splitWSAux_words :
    ∀ (s acc : List Char), (∀ c ∈ acc, pyWS c = false) →
      ∀ w ∈ splitWSAux s acc, w ≠ [] ∧ ∀ c ∈ w, pyWS c = false := by
  intro s
  induction s with
  | nil =>
    intro acc hacc w hw
    unfold splitWSAux at hw
    by_cases h : acc.isEmpty = true
    · simp [h] at hw
    · rw [if_neg h] at hw
      rw [List.mem_singleton] at hw
      subst hw
      constructor
      · simp only [ne_eq, List.reverse_eq_nil_iff]
        intro hcon
        rw [hcon] at h
        exact h rfl
      · intro c hc
        exact hacc c (List.mem_reverse.mp hc)
  | cons c cs ih =>
    intro acc hacc w hw
    unfold splitWSAux at hw
    by_cases hc : pyWS c = true
    · rw [if_pos hc] at hw
      by_cases ha : acc.isEmpty = true
      · rw [if_pos ha] at hw
        exact ih [] (by simp) w hw
      · rw [if_neg ha, List.mem_cons] at hw
        rcases hw with hw | hw
        · subst hw
          constructor
          · simp only [ne_eq, List.reverse_eq_nil_iff]
            intro hcon
            rw [hcon] at ha
            exact ha rfl
          · intro x hx
            exact hacc x (List.mem_reverse.mp hx)
        · exact ih [] (by simp) w hw
    · rw [if_neg hc] at hw
      refine ih (c :: acc) ?_ w hw
      intro x hx
      rcases List.mem_cons.mp hx with hx | hx
      · subst hx
        exact Bool.eq_false_iff.mpr hc
      · exact hacc x hx

theorem pySplitWS_words (s : List Char) :
    ∀ w ∈ pySplitWS s, w ≠ [] ∧ ∀ c ∈ w, pyWS c = false :=
  splitWSAux_words s [] (by simp)

theorem joinWords_head? (w : List Char) (ws : List (List Char)) (hw : w ≠ []) :
    (joinWords (w :: ws)).head? = w.head? := by
  cases ws with
  | nil => rfl
  | cons w2 ws' =>
    show (w ++ ' ' :: joinWords (w2 :: ws')).head? = w.head?
    cases w with
    | nil => exact absurd rfl hw
    | cons c cs => rfl

theorem joinWords_mem (c : Char) :
    ∀ ws : List (List Char), c ∈ joinWords ws →
      c = ' ' ∨ ∃ w ∈ ws, c ∈ w := by
  intro ws
  induction ws with
  | nil => intro h; simp [joinWords] at h
  | cons w rest ih =>
    intro h
    cases rest with
    | nil =>
      right
      exact ⟨w, List.mem_cons_self _ _, h⟩
    | cons w2 rest' =>
      have h' : c ∈ w ++ ' ' :: joinWords (w2 :: rest') := h
      rcases List.mem_append.mp h' with hw | hw
      · right
        exact ⟨w, List.mem_cons_self _ _, hw⟩
      · rcases List.mem_cons.mp hw with hsp | hj
        · exact Or.inl hsp
        · rcases ih hj with hsp | ⟨w', hw', hc⟩
          · exact Or.inl hsp
          · exact Or.inr ⟨w', List.mem_cons_of_mem w hw', hc⟩

/-- No character of a word join other than the inserted separators is
whitespace, so every whitespace character of the join is a single
space. -/
theorem joinWords_ws_is_space (ws : List (List Char))
    (hws : ∀ w ∈ ws, w ≠ [] ∧ ∀ c ∈ w, pyWS c = false) :
    ∀ c ∈ joinWords ws, pyWS c = true → c = ' ' := by
  intro c hc _
  rcases joinWords_mem c ws hc with h | ⟨w, hw, hcw⟩
  · exact h
  · exact absurd ((hws w hw).2 c hcw) (by simp_all)

theorem chain_no_double_space_of_no_space (l : List Char)
    (h : ∀ c ∈ l, pyWS c = false) :
    List.Chain' (fun a b => ¬(a = ' ' ∧ b = ' ')) l := by
  induction l with
  | nil => exact List.chain'_nil
  | cons c cs ih =>
    refine List.chain'_cons'.mpr ⟨?_, ih (fun x hx => h x (List.mem_cons_of_mem c hx))⟩
    intro y _
    intro hcon
    have := h c (List.mem_cons_self c cs)
    rw [hcon.1] at this
    simp [pyWS] at this

theorem joinWords_no_double_space :
    ∀ ws : List (List Char),
      (∀ w ∈ ws, w ≠ [] ∧ ∀ c ∈ w, pyWS c = false) →
      List.Chain' (fun a b => ¬(a = ' ' ∧ b = ' ')) (joinWords ws) := by
  intro ws
  induction ws with
  | nil => intro _; exact List.chain'_nil
  | cons w rest ih =>
    intro hws
    have hw := hws w (List.mem_cons_self _ _)
    have hrest : ∀ w' ∈ rest, w' ≠ [] ∧ ∀ c ∈ w', pyWS c = false :=
      fun w' hw' => hws w' (List.mem_cons_of_mem w hw')
    cases rest with
    | nil =>
      exact chain_no_double_space_of_no_space w hw.2
    | cons w2 rest' =>
      show List.Chain' _ (w ++ ' ' :: joinWords (w2 :: rest'))
      refine List.chain'_append.mpr ⟨chain_no_double_space_of_no_space w hw.2, ?_, ?_⟩
      · refine List.chain'_cons'.mpr ⟨?_, ih hrest⟩
        intro y hy
        have hw2 := hrest w2 (List.mem_cons_self _ _)
        rw [joinWords_head? w2 rest' hw2.1] at hy
        intro hcon
        have hmem : y ∈ w2 := by
          cases w2 with
          | nil => exact absurd rfl hw2.1
          | cons a as =>
            simp only [List.head?_cons, Option.mem_def, Option.some.injEq] at hy
            rw [← hy]
            exact List.mem_cons_self a as
        have := hw2.2 y hmem
        rw [hcon.2] at this
        simp [pyWS] at this
      · intro x hx y hy
        intro hcon
        have hmem : x ∈ w := List.mem_of_mem_getLast? hx
        have := hw.2 x hmem
        rw [hcon.1] at this
        simp [pyWS] at this

/-- C8: the context window widens `ctx_chars` symmetrically around the
match span (clamped to the text), expands outward until both edges sit on
a `" \n\t"` boundary (never cutting a word: the character just outside
each edge is whitespace or the edge is a text end), collapses the
window's internal whitespace so that every whitespace character shown is
a single space with no two adjacent, and prefixes `"..."` exactly when
the left edge is not the text start and suffixes `"..."` exactly when the
right edge is not the text end — in particular a match at the very start
produces no leading ellipsis and a match reaching the very end no
trailing one. -/
theorem context_window_spec (content : List Char) (start stop c : Nat) :
    ((make_context content start stop c).ctx_start = 0 ∨
      boundaryWS (content.getD
        ((make_context content start stop c).ctx_start - 1) ' ') = true) ∧
    ((make_context content start stop c).ctx_end = content.length ∨
      boundaryWS (content.getD
        ((make_context content start stop c).ctx_end) ' ') = true) ∧
    (make_context content start stop c).ctx_start ≤ start - c ∧
    min content.length (stop + c) ≤ (make_context content start stop c).ctx_end ∧
    (make_context content start stop c).ctx_end ≤ content.length ∧
    (start = 0 → (make_context content start stop c).ctx_start = 0) ∧
    (content.length ≤ stop + c →
      (make_context content start stop c).ctx_end = content.length) ∧
    ∃ core,
      (make_context content start stop c).context =
        (if 0 < (make_context content start stop c).ctx_start then dots
          else []) ++ core ++
        (if (make_context content start stop c).ctx_end < content.length then
          dots else []) ∧
      (∀ ch ∈ core, pyWS ch = true → ch = ' ') ∧
      List.Chain' (fun a b => ¬(a = ' ' ∧ b = ' ')) core := by
  refine ⟨expandLeft_boundary content (start - c),
    expandRight_boundary content (min content.length (stop + c))
      (Nat.min_le_left _ _),
    expandLeft_le content (start - c),
    expandRight_ge content (min content.length (stop + c)),
    expandRight_le content (min content.length (stop + c))
      (Nat.min_le_left _ _),
    ?_, ?_, ?_⟩
  · intro h
    subst h
    show expandLeft content (0 - c) = 0
    rw [Nat.zero_sub]
    exact expandLeft_zero content
  · intro h
    show expandRight content (min content.length (stop + c)) = content.length
    rw [Nat.min_eq_left h]
    exact expandRight_at_end content
  · refine ⟨joinWords (pySplitWS (pyStrip
      ((content.drop (expandLeft content (start - c))).take
        (expandRight content (min content.length (stop + c)) -
          expandLeft content (start - c))))), ?_, ?_, ?_⟩
    · show (if expandRight content (min content.length (stop + c)) <
          content.length then
            (if 0 < expandLeft content (start - c) then
              dots ++ joinWords (pySplitWS (pyStrip
                ((content.drop (expandLeft content (start - c))).take
                  (expandRight content (min content.length (stop + c)) -
                    expandLeft content (start - c)))))
            else joinWords (pySplitWS (pyStrip
              ((content.drop (expandLeft content (start - c))).take
                (expandRight content (min content.length (stop + c)) -
                  expandLeft content (start - c)))))) ++ dots
          else
            (if 0 < expandLeft content (start - c) then
              dots ++ joinWords (pySplitWS (pyStrip
                ((content.drop (expandLeft content (start - c))).take
                  (expandRight content (min content.length (stop + c)) -
                    expandLeft content (start - c)))))
            else joinWords (pySplitWS (pyStrip
              ((content.drop (expandLeft content (start - c))).take
                (expandRight content (min content.length (stop + c)) -
                  expandLeft content (start - c))))))) = _
      have hcs : (make_context content start stop c).ctx_start =
          expandLeft content (start - c) := rfl
      have hce : (make_context content start stop c).ctx_end =
          expandRight content (min content.length (stop + c)) := rfl
      rw [hcs, hce]
      by_cases h1 : 0 < expandLeft content (start - c) <;>
        by_cases h2 : expandRight content (min content.length (stop + c)) <
          content.length <;>
        simp [h1, h2]
    · exact joinWords_ws_is_space _ (pySplitWS_words _)
    · exact joinWords_no_double_space _ (pySplitWS_words _)

end PDFX
